import Mathlib

/-!
Verification of the mcp-pull-buddy recommendation engine.

The definitions below are a shallow embedding of the TypeScript sources
`src/cache.ts`, `src/test-client.ts` (the GitHub data layer) and
`src/index.ts` (the find-pr-buddy tool).  Upstream GitHub responses are
modelled as explicit environments (pure lookup functions), timestamps as
integers (milliseconds), JavaScript `null`/`undefined` as `Option`,
thrown exceptions as `Except.error`, and JavaScript number arithmetic on
scores and averages as exact rational arithmetic.
-/

namespace PullBuddy

/-! ## TTL cache store (src/cache.ts)

JavaScript `Map` operations are modelled on association lists:
`mapGet` finds the first binding, `mapSet` overwrites in place or
appends, `mapDelete` removes the (unique) binding.  `Date.now()` is
passed in explicitly as `now`. -/

def mapGet {α : Type} (m : List (String × α)) (k : String) : Option α :=
  match m with
  | [] => none
  | (k', v) :: rest => if k' = k then some v else mapGet rest k

def mapSet {α : Type} (m : List (String × α)) (k : String) (v : α) :
    List (String × α) :=
  match m with
  | [] => [(k, v)]
  | (k', v') :: rest =>
      if k' = k then (k, v) :: rest else (k', v') :: mapSet rest k v

def mapDelete {α : Type} (m : List (String × α)) (k : String) :
    List (String × α) :=
  match m with
  | [] => []
  | (k', v') :: rest =>
      if k' = k then rest else (k', v') :: mapDelete rest k

structure CacheEntry (T : Type) where
  data : T
  timestamp : Int
deriving DecidableEq

def CACHE_TTL : Int := 5 * 60 * 1000

structure CacheStore (T : Type) where
  cache : List (String × CacheEntry T)
  ttl : Int
deriving DecidableEq

/-- Mirrors `CacheStore.get`: a hit older than `ttl` is evicted and
reported as a miss; a fresh hit returns the stored data; a true miss
leaves the store untouched. -/
def CacheStore.get {T : Type} (s : CacheStore T) (now : Int) (key : String) :
    Option T × CacheStore T :=
  match mapGet s.cache key with
  | none => (none, s)
  | some cached =>
      if now - cached.timestamp > s.ttl then
        (none, { s with cache := mapDelete s.cache key })
      else
        (some cached.data, s)

/-- Mirrors `CacheStore.set`: unconditional overwrite with a fresh
timestamp. -/
def CacheStore.set {T : Type} (s : CacheStore T) (now : Int) (key : String)
    (data : T) : CacheStore T :=
  { s with cache := mapSet s.cache key { data := data, timestamp := now } }

/-- Mirrors `CacheStore.clear`. -/
def CacheStore.clear {T : Type} (s : CacheStore T) : CacheStore T :=
  { s with cache := [] }

theorem mapGet_mapSet_self {α : Type} (m : List (String × α)) (k : String)
    (v : α) : mapGet (mapSet m k v) k = some v := by
  induction m with
  | nil => simp [mapSet, mapGet]
  | cons hd tl ih =>
      obtain ⟨k', v'⟩ := hd
      by_cases h : k' = k
      · simp [mapSet, h, mapGet]
      · simp [mapSet, h, mapGet, ih]

theorem map_fst_mapSet {α : Type} (m : List (String × α)) (k : String)
    (v : α) :
    (mapSet m k v).map Prod.fst =
      if k ∈ m.map Prod.fst then m.map Prod.fst
      else m.map Prod.fst ++ [k] := by
  induction m with
  | nil => simp [mapSet]
  | cons hd tl ih =>
      obtain ⟨k', v'⟩ := hd
      by_cases h : k' = k
      · subst h; simp [mapSet]
      · simp only [mapSet, if_neg h, List.map_cons, ih, List.mem_cons]
        by_cases hmem : k ∈ tl.map Prod.fst
        · simp [hmem, Ne.symm h]
        · simp [hmem, Ne.symm h]

theorem keys_mapSet {α : Type} (m : List (String × α)) (k : String) (v : α)
    (h : (m.map Prod.fst).Nodup) : ((mapSet m k v).map Prod.fst).Nodup := by
  rw [map_fst_mapSet]
  by_cases hmem : k ∈ m.map Prod.fst
  · simpa [hmem] using h
  · simp [hmem, List.nodup_append, h]

theorem mapGet_mapDelete_self {α : Type} (m : List (String × α)) (k : String)
    (h : (m.map Prod.fst).Nodup) : mapGet (mapDelete m k) k = none := by
  induction m with
  | nil => simp [mapDelete, mapGet]
  | cons hd tl ih =>
      obtain ⟨k', v'⟩ := hd
      simp only [List.map_cons, List.nodup_cons] at h
      by_cases hk : k' = k
      · subst hk
        simp only [mapDelete, if_pos rfl]
        clear ih
        induction tl with
        | nil => simp [mapGet]
        | cons x xs ihx =>
            obtain ⟨xk, xv⟩ := x
            simp only [List.map_cons, List.mem_cons] at h
            have hne : xk ≠ k' := fun hc => h.1 (Or.inl hc.symm)
            simp only [mapGet, if_neg hne]
            exact ihx ⟨fun hm => h.1 (Or.inr hm), (List.nodup_cons.mp h.2).2⟩
      · simp only [mapDelete, if_neg hk, mapGet, if_neg hk]
        exact ih h.2

/-- C4: after `set k v` at time `n1` with TTL `t = s.ttl`, a `get k` at
time `n2` with `n2 - n1 ≤ t` returns exactly `v` (store unchanged); a
`get` with `n2 - n1 > t` returns absent and the entry is removed from the
store; a `get` on an absent key returns absent without modifying the
store. -/
theorem cache_ttl_roundtrip {T : Type} (s : CacheStore T) (k : String)
    (v : T) (n1 n2 : Int) (hnd : (s.cache.map Prod.fst).Nodup) :
    (n2 - n1 ≤ s.ttl → (s.set n1 k v).get n2 k = (some v, s.set n1 k v))
    ∧ (n2 - n1 > s.ttl →
        ((s.set n1 k v).get n2 k).1 = none
        ∧ mapGet ((s.set n1 k v).get n2 k).2.cache k = none)
    ∧ (mapGet s.cache k = none → s.get n2 k = (none, s)) := by
  refine ⟨?_, ?_, ?_⟩
  · intro hle
    have hget : mapGet (mapSet s.cache k ⟨v, n1⟩) k = some ⟨v, n1⟩ :=
      mapGet_mapSet_self s.cache k _
    simp only [CacheStore.get, CacheStore.set, hget]
    rw [if_neg (by simpa using not_lt.mpr hle)]
  · intro hgt
    have hget : mapGet (mapSet s.cache k ⟨v, n1⟩) k = some ⟨v, n1⟩ :=
      mapGet_mapSet_self s.cache k _
    simp only [CacheStore.get, CacheStore.set, hget]
    rw [if_pos (by simpa using hgt)]
    exact ⟨rfl, mapGet_mapDelete_self _ _ (keys_mapSet s.cache k _ hnd)⟩
  · intro hmiss
    simp [CacheStore.get, hmiss]

/-- Witness for C4 at a concrete store: TTL 5, set at time 0, read at
times 3 (fresh) and 99 (expired), plus a miss on an unset key. -/
theorem cache_ttl_roundtrip_witness :
    ((CacheStore.mk ([] : List (String × CacheEntry Nat)) 5).set 0 "a" 7).get
        3 "a"
      = (some 7, (CacheStore.mk [] 5).set 0 "a" 7)
    ∧ (((CacheStore.mk ([] : List (String × CacheEntry Nat)) 5).set 0 "a"
          7).get 99 "a").1 = none
    ∧ (CacheStore.mk ([] : List (String × CacheEntry Nat)) 5).get 3 "b"
      = (none, CacheStore.mk [] 5) :=
  ⟨(cache_ttl_roundtrip (CacheStore.mk [] 5) "a" 7 0 3 (by simp)).1
      (by decide),
    ((cache_ttl_roundtrip (CacheStore.mk [] 5) "a" 7 0 99 (by simp)).2.1
      (by decide)).1,
    (cache_ttl_roundtrip (CacheStore.mk [] 5) "b" 7 0 3 (by simp)).2.2
      (by simp [mapGet])⟩

/-! ## Reviewer score (src/index.ts, find-pr-buddy)

The score computed per candidate, with JavaScript floating-point
arithmetic embedded as exact rational arithmetic. -/

def score (pendingReviews relatedFileChanges totalReviews : ℕ) : ℚ :=
  (1 / ((pendingReviews : ℚ) + 1)) * 0.3
    + ((relatedFileChanges : ℚ) / 10) * 0.4
    + ((totalReviews : ℚ) / 50) * 0.3

/-- C5: the candidate score equals
0.3 × (1 / (pendingReviews + 1)) + 0.4 × (relatedFileChanges / 10) +
0.3 × (totalReviews / 50); it is strictly decreasing in pendingReviews
with the other two inputs fixed, and strictly increasing in
relatedFileChanges with the other two inputs fixed. -/
theorem score_formula_monotone :
    (∀ p f t : ℕ, score p f t
        = 0.3 * (1 / ((p : ℚ) + 1)) + 0.4 * ((f : ℚ) / 10)
          + 0.3 * ((t : ℚ) / 50))
    ∧ (∀ p₁ p₂ f t : ℕ, p₁ < p₂ → score p₂ f t < score p₁ f t)
    ∧ (∀ p f₁ f₂ t : ℕ, f₁ < f₂ → score p f₁ t < score p f₂ t) := by
  refine ⟨fun p f t => by unfold score; ring, ?_, ?_⟩
  · intro p₁ p₂ f t h
    have h1 : (0 : ℚ) < (p₁ : ℚ) + 1 := by positivity
    have h2 : ((p₁ : ℚ) + 1) < ((p₂ : ℚ) + 1) := by
      have : (p₁ : ℚ) < (p₂ : ℚ) := by exact_mod_cast h
      linarith
    have h3 := one_div_lt_one_div_of_lt h1 h2
    unfold score
    linarith
  · intro p f₁ f₂ t h
    have hf : (f₁ : ℚ) < (f₂ : ℚ) := by exact_mod_cast h
    unfold score
    linarith

/-- Witness for C5: monotonicity instances at concrete inputs. -/
theorem score_formula_monotone_witness :
    score 2 3 4 < score 1 3 4 ∧ score 5 1 4 < score 5 2 4 :=
  ⟨score_formula_monotone.2.1 1 2 3 4 (by decide),
    score_formula_monotone.2.2 5 1 2 4 (by decide)⟩

/-! ## Upstream data model (src/test-client.ts)

GitHub records keep only the fields the code reads; nullable upstream
fields are `Option`. -/

structure UserRef where
  login : String
deriving DecidableEq

structure PullRequest where
  number : ℕ
  created_at : Int
  user : UserRef
  requested_reviewers : Option (List UserRef)
deriving DecidableEq

structure Review where
  id : ℕ
  user : Option UserRef
  submitted_at : Option Int
deriving DecidableEq

structure PrFile where
  filename : String
deriving DecidableEq

structure UpstreamComment where
  id : ℕ
  user : Option UserRef
  body : Option String
  created_at : Int
  path : String
  line : Option ℕ
  commit_id : String
deriving DecidableEq

structure ReviewComment where
  id : ℕ
  prNumber : ℕ
  author : String
  body : String
  createdAt : Int
  path : String
  line : Option ℕ
  commitId : String
deriving DecidableEq

/-- Upstream responses for one repository, as a pure environment: the
changed files and the reviews of each pull request (by PR number) and
the line comments of each review (by PR number and review id). -/
structure RepoEnv where
  files : ℕ → List PrFile
  reviews : ℕ → List Review
  comments : ℕ → ℕ → List UpstreamComment

/-- Upstream responses for one organization: the repository names
listed for the organization and the open pull requests of each
repository. -/
structure OrgEnv where
  repos : List String
  pullsFor : String → List PullRequest

/-! ## getPullRequestByOwner (src/test-client.ts lines 153-172)

The loop body destructures the per-repository response into a fresh
`pullRequests` binding that shadows the outer accumulator, so the push
appends the inner list to itself and the outer accumulator is never
extended. -/

def getPullRequestByOwner (env : OrgEnv) : List PullRequest :=
  let pullRequests : List PullRequest := []
  env.repos.foldl
    (fun acc repoName =>
      let pullRequestsShadow := env.pullsFor repoName
      let _pushed := pullRequestsShadow ++ pullRequestsShadow
      acc)
    pullRequests

/-- Modelled from the spec: `fetchOrgPullRequests(owner)` lists every
repository in the organization, then lists pull requests per
repository, concatenating results. -/
def fetchOrgPullRequestsSpec (env : OrgEnv) : List PullRequest :=
  env.repos.flatMap env.pullsFor

def orgEnvC1 : OrgEnv :=
  { repos := ["widgets"]
    pullsFor := fun r =>
      if r = "widgets" then
        [{ number := 1, created_at := 0, user := ⟨"alice"⟩,
           requested_reviewers := some [] }]
      else [] }

/-- C1 (code bug): `getPullRequestByOwner` always returns the empty
list — the destructured per-repository `pullRequests` shadows the outer
accumulator, so nothing is ever appended to it.  At a concrete
organization with one repository holding one pull request the result is
empty while the specified concatenation is non-empty. -/
theorem getPullRequestByOwner_always_empty :
    (∀ env : OrgEnv, getPullRequestByOwner env = [])
    ∧ getPullRequestByOwner orgEnvC1 = []
    ∧ fetchOrgPullRequestsSpec orgEnvC1 ≠ [] := by
  have hall : ∀ env : OrgEnv, getPullRequestByOwner env = [] := by
    intro env
    unfold getPullRequestByOwner
    induction env.repos with
    | nil => rfl
    | cons r rs _ih => simp
  exact ⟨hall, hall orgEnvC1, by simp [fetchOrgPullRequestsSpec, orgEnvC1]⟩

/-! ## find-pr-buddy candidate filter (src/index.ts lines 184-191)

The filter keeps a buddy when it is not already a requested reviewer OR
its login differs from the pull-request author's login. -/

structure Buddy where
  login : String
  name : Option String
deriving DecidableEq

def findPrBuddyFilter (reviewers : List UserRef) (prAuthor : UserRef)
    (buddy : Buddy) : Bool :=
  !(reviewers.any fun r => r.login == buddy.login)
    || buddy.login != prAuthor.login

def filteredBuddies (buddies : List Buddy) (reviewers : List UserRef)
    (prAuthor : UserRef) : List Buddy :=
  buddies.filter (findPrBuddyFilter reviewers prAuthor)

/-- C2 (code bug): the filter's two conditions are OR-ed, so the
author passes whenever they are not already a requested reviewer, and a
requested reviewer passes whenever they are not the author.  With
author alice and requested reviewer bob, both alice and bob survive the
filter, though the code's own comment says both are to be excluded. -/
theorem findPrBuddyFilter_keeps_author_and_requested :
    filteredBuddies [⟨"alice", none⟩, ⟨"bob", none⟩] [⟨"bob"⟩] ⟨"alice"⟩
      = [⟨"alice", none⟩, ⟨"bob", none⟩]
    ∧ findPrBuddyFilter [⟨"bob"⟩] ⟨"alice"⟩ ⟨"alice", none⟩ = true
    ∧ findPrBuddyFilter [⟨"bob"⟩] ⟨"alice"⟩ ⟨"bob", none⟩ = true := by
  refine ⟨?_, by decide, by decide⟩
  decide

/-! ## getPullRequestDetails (src/test-client.ts lines 235-267)

The initial `pulls.get` call sits outside the try block: its failure
(owner/repo/PR not found) escapes as an exception, modelled as
`Except.error`.  Only the file-list fetch is inside the try; its
failure is caught and surfaced as `null`, modelled as `Except.ok
none`. -/

structure PullRequestParams where
  owner : String
  repo : String
  pullNumber : ℕ
deriving DecidableEq

structure PrDetails where
  pr : PullRequest
  files : List PrFile
  reviewers : List UserRef
deriving DecidableEq

/-- Upstream outcome for one `getPullRequestDetails` call: `none`
means the corresponding octokit call throws (for `getPull`, a not-found
owner/repo/PR). -/
structure PrDetailsUpstream where
  getPull : Option PullRequest
  listFiles : Option (List PrFile)

def getPullRequestDetails (env : PullRequestParams → PrDetailsUpstream)
    (params : Option PullRequestParams) :
    Except String (Option PrDetails) :=
  match params with
  | none => .error "Invalid pull request URL"
  | some p =>
      match (env p).getPull with
      | none => .error "NotFoundError"
      | some pr =>
          match (env p).listFiles with
          | none => .ok none
          | some files =>
              .ok (some
                { pr := pr, files := files,
                  reviewers := pr.requested_reviewers.getD [] })

def prDetailsEnvMissing : PullRequestParams → PrDetailsUpstream :=
  fun _ => { getPull := none, listFiles := none }

/-- Counterexample to C3: when the referenced pull request does not
exist, the `pulls.get` call throws outside the try block and the
exception propagates to the caller instead of being surfaced as an
absent result. -/
theorem getPullRequestDetails_not_found_throws :
    getPullRequestDetails prDetailsEnvMissing
        (some ⟨"acme", "widgets", 42⟩)
      = .error "NotFoundError" := rfl

/-- C3 (amended): `getPullRequestDetails` returns `{pr, files,
reviewers}` or absent for the outcomes it handles; a nonexistent
owner/repo/PR makes the initial pull-request fetch throw, and that
exception propagates to the caller; only a failure of the subsequent
file-list fetch is surfaced as an absent result. -/
theorem getPullRequestDetails_shape :
    ∀ (env : PullRequestParams → PrDetailsUpstream)
      (p : PullRequestParams),
    ((env p).getPull = none →
        getPullRequestDetails env (some p) = .error "NotFoundError")
    ∧ (∀ pr, (env p).getPull = some pr → (env p).listFiles = none →
        getPullRequestDetails env (some p) = .ok none)
    ∧ (∀ pr files, (env p).getPull = some pr →
        (env p).listFiles = some files →
        getPullRequestDetails env (some p)
          = .ok (some
              { pr := pr, files := files,
                reviewers := pr.requested_reviewers.getD [] })) := by
  intro env p
  refine ⟨fun h => by simp [getPullRequestDetails, h], ?_, ?_⟩
  · intro pr h1 h2
    simp [getPullRequestDetails, h1, h2]
  · intro pr files h1 h2
    simp [getPullRequestDetails, h1, h2]

def prDetailsEnvOk : PullRequestParams → PrDetailsUpstream :=
  fun _ =>
    { getPull := some
        { number := 42, created_at := 0, user := ⟨"alice"⟩,
          requested_reviewers := some [⟨"bob"⟩] }
      listFiles := some [⟨"x.ts"⟩] }

/-- Witness for C3 (amended) at concrete environments: the not-found
case, the caught file-list failure, and the success shape. -/
theorem getPullRequestDetails_shape_witness :
    getPullRequestDetails prDetailsEnvMissing
        (some ⟨"acme", "widgets", 41⟩)
      = .error "NotFoundError"
    ∧ getPullRequestDetails prDetailsEnvOk (some ⟨"acme", "widgets", 42⟩)
      = .ok (some
          { pr :=
              { number := 42, created_at := 0, user := ⟨"alice"⟩,
                requested_reviewers := some [⟨"bob"⟩] },
            files := [⟨"x.ts"⟩], reviewers := [⟨"bob"⟩] }) :=
  ⟨(getPullRequestDetails_shape prDetailsEnvMissing
      ⟨"acme", "widgets", 41⟩).1 rfl,
    (getPullRequestDetails_shape prDetailsEnvOk
      ⟨"acme", "widgets", 42⟩).2.2 _ _ rfl rfl⟩

/-! ## calculateRelatedFileExperience (src/test-client.ts lines 387-474)

The cached fetches are modelled by the pure environment `RepoEnv`; the
pull-request list obtained from the cache or the upstream fetch is
passed in explicitly. -/

def calculateRelatedFileExperience (env : RepoEnv)
    (pullRequests : List PullRequest) (prNumber : ℕ)
    (reviewer : String) : ℕ :=
  let currentFiles := (env.files prNumber).map PrFile.filename
  pullRequests.foldl
    (fun relatedChanges pr =>
      let prReviews := env.reviews pr.number
      let hasReviewed := prReviews.any fun review =>
        (review.user.map UserRef.login) == some reviewer
      if hasReviewed then
        let reviewFiles := env.files pr.number
        if reviewFiles.any fun file => currentFiles.contains file.filename
        then relatedChanges + 1
        else relatedChanges
      else relatedChanges)
    0

theorem foldl_nested_if_countP {α : Type} (q r : α → Bool) :
    ∀ (l : List α) (acc : ℕ),
      l.foldl
          (fun n x => if q x then (if r x then n + 1 else n) else n) acc
        = acc + l.countP fun x => q x && r x := by
  intro l
  induction l with
  | nil => intro acc; simp
  | cons x xs ih =>
      intro acc
      simp only [List.foldl_cons, List.countP_cons]
      by_cases hq : q x
      · by_cases hr : r x
        · simp only [hq, hr, if_pos, ih]
          simp
          omega
        · simp [hq, hr, ih]
      · simp [hq, ih]

/-- C6: the related-file experience of reviewer R against target PR
`prNumber` counts, over the fetched pull-request list, exactly the pull
requests (each list entry contributing at most one, the target itself
not excluded) that have at least one review authored by R and at least
one changed filename in common with the target's changed files; a pull
request whose file set is disjoint from the target's contributes
nothing. -/
theorem calculateRelatedFileExperience_countP (env : RepoEnv)
    (pullRequests : List PullRequest) (prNumber : ℕ) (reviewer : String) :
    calculateRelatedFileExperience env pullRequests prNumber reviewer
      = pullRequests.countP fun pr =>
          ((env.reviews pr.number).any fun review =>
            (review.user.map UserRef.login) == some reviewer)
          && ((env.files pr.number).any fun file =>
            ((env.files prNumber).map PrFile.filename).contains
              file.filename) := by
  unfold calculateRelatedFileExperience
  simpa using
    foldl_nested_if_countP
      (fun pr : PullRequest =>
        (env.reviews pr.number).any fun review =>
          (review.user.map UserRef.login) == some reviewer)
      (fun pr : PullRequest =>
        (env.files pr.number).any fun file =>
          ((env.files prNumber).map PrFile.filename).contains
            file.filename)
      pullRequests 0

/-! ## getReviewHistory (src/test-client.ts lines 269-384) -/

structure ReviewEntry where
  prNumber : ℕ
  submittedAt : Option Int
  comments : List ReviewComment
deriving DecidableEq

structure ReviewStats where
  totalReviews : ℕ
  totalComments : ℕ
  averageResponseTime : ℚ
  lastReviewAt : Option Int
  relatedFileChanges : ℕ
deriving DecidableEq

structure ReviewerId where
  login : String
  name : Option String
deriving DecidableEq

structure ReviewHistoryResult where
  reviewer : ReviewerId
  reviews : List ReviewEntry
  stats : ReviewStats
deriving DecidableEq

structure HistoryAcc where
  reviews : List ReviewEntry
  totalComments : ℕ
  totalResponseTime : Int
  lastReviewAt : Option Int
deriving DecidableEq

def formatComment (prNumber : ℕ) (comment : UpstreamComment) :
    ReviewComment :=
  { id := comment.id
    prNumber := prNumber
    author := (comment.user.map UserRef.login).getD ""
    body := comment.body.getD ""
    createdAt := comment.created_at
    path := comment.path
    line := comment.line
    commitId := comment.commit_id }

/-- Mirrors the response-time computation: a review with an absent
`submitted_at` falls back to the pull request's creation time. -/
def reviewResponseTime (pr : PullRequest) (review : Review) : Int :=
  review.submitted_at.getD pr.created_at - pr.created_at

def updateLastReviewAt (lastReviewAt : Option Int) (review : Review) :
    Option Int :=
  let isLater : Bool :=
    match review.submitted_at, lastReviewAt with
    | some s, some l => s > l
    | some _, none => true
    | none, _ => false
  if lastReviewAt.isNone || isLater then
    match review.submitted_at with
    | some s => some s
    | none => lastReviewAt
  else lastReviewAt

def reviewStep (env : RepoEnv) (pr : PullRequest) (acc : HistoryAcc)
    (review : Review) : HistoryAcc :=
  let comments := env.comments pr.number review.id
  let formattedComments := comments.map (formatComment pr.number)
  { reviews := acc.reviews ++
      [{ prNumber := pr.number, submittedAt := review.submitted_at,
         comments := formattedComments }]
    totalComments := acc.totalComments + formattedComments.length
    totalResponseTime := acc.totalResponseTime + reviewResponseTime pr review
    lastReviewAt := updateLastReviewAt acc.lastReviewAt review }

def getReviewHistory (env : RepoEnv) (pullRequests : List PullRequest)
    (reviewer : String) (since : Int) : ReviewHistoryResult :=
  let acc :=
    pullRequests.foldl
      (fun acc pr =>
        if pr.created_at < since then acc
        else
          let prReviews := env.reviews pr.number
          let reviewerReviews := prReviews.filter fun review =>
            (review.user.map UserRef.login) == some reviewer
          reviewerReviews.foldl (reviewStep env pr) acc)
      { reviews := [], totalComments := 0, totalResponseTime := 0,
        lastReviewAt := none }
  { reviewer := { login := reviewer, name := none }
    reviews := acc.reviews
    stats :=
      { totalReviews := acc.reviews.length
        totalComments := acc.totalComments
        averageResponseTime :=
          if acc.reviews.length > 0 then
            (acc.totalResponseTime : ℚ) / (acc.reviews.length : ℚ)
          else 0
        lastReviewAt := acc.lastReviewAt
        relatedFileChanges := 0 } }

/-- The (pull request, review) pairs that survive the since-window
filter and the reviewer filter, in processing order. -/
def matchedReviewPairs (env : RepoEnv) (pullRequests : List PullRequest)
    (reviewer : String) (since : Int) : List (PullRequest × Review) :=
  (pullRequests.filter fun pr => since ≤ pr.created_at).flatMap fun pr =>
    ((env.reviews pr.number).filter fun review =>
        (review.user.map UserRef.login) == some reviewer).map fun review =>
      (pr, review)

theorem history_foldl_eq_pairs_foldl (env : RepoEnv) (reviewer : String)
    (since : Int) :
    ∀ (pullRequests : List PullRequest) (acc : HistoryAcc),
      pullRequests.foldl
          (fun acc pr =>
            if pr.created_at < since then acc
            else
              ((env.reviews pr.number).filter fun review =>
                  (review.user.map UserRef.login) == some reviewer).foldl
                (reviewStep env pr) acc)
          acc
        = (matchedReviewPairs env pullRequests reviewer since).foldl
            (fun acc pr_rv => reviewStep env pr_rv.1 acc pr_rv.2) acc := by
  intro pullRequests
  induction pullRequests with
  | nil => intro acc; simp [matchedReviewPairs]
  | cons pr prs ih =>
      intro acc
      by_cases h : pr.created_at < since
      · have hfilter : ¬(decide (since ≤ pr.created_at) = true) := by
          simp; omega
        rw [List.foldl_cons, if_pos h, ih acc]
        unfold matchedReviewPairs
        rw [List.filter_cons, if_neg hfilter]
      · have hfilter : decide (since ≤ pr.created_at) = true := by
          simp; omega
        rw [List.foldl_cons, if_neg h]
        rw [ih]
        unfold matchedReviewPairs
        rw [List.filter_cons, if_pos hfilter, List.flatMap_cons,
          List.foldl_append, List.foldl_map]

theorem pairs_foldl_stats (env : RepoEnv) :
    ∀ (pairs : List (PullRequest × Review)) (acc : HistoryAcc),
      ((pairs.foldl
            (fun acc pr_rv => reviewStep env pr_rv.1 acc pr_rv.2)
            acc).reviews.length
          = acc.reviews.length + pairs.length)
      ∧ ((pairs.foldl
            (fun acc pr_rv => reviewStep env pr_rv.1 acc pr_rv.2)
            acc).totalResponseTime
          = acc.totalResponseTime
            + (pairs.map fun pr_rv =>
                reviewResponseTime pr_rv.1 pr_rv.2).sum) := by
  intro pairs
  induction pairs with
  | nil => intro acc; simp
  | cons p ps ih =>
      intro acc
      obtain ⟨pr, rv⟩ := p
      simp only [List.foldl_cons, List.map_cons, List.sum_cons,
        List.length_cons]
      constructor
      · rw [(ih _).1]
        simp [reviewStep]
        omega
      · rw [(ih _).2]
        simp [reviewStep]
        omega

/-- C8: when no review matches the reviewer inside the window the
average response time is 0 (no division is performed); when exactly one
review matches, submitted at time `s` on a pull request created at
`pr.created_at`, the average equals exactly `s - pr.created_at`; a
review with an absent submission timestamp contributes a response time
of exactly 0. -/
theorem getReviewHistory_average (env : RepoEnv)
    (pullRequests : List PullRequest) (reviewer : String) (since : Int) :
    (matchedReviewPairs env pullRequests reviewer since = [] →
      (getReviewHistory env pullRequests reviewer
          since).stats.averageResponseTime = 0)
    ∧ (∀ pr review s,
        matchedReviewPairs env pullRequests reviewer since = [(pr, review)] →
        review.submitted_at = some s →
        (getReviewHistory env pullRequests reviewer
            since).stats.averageResponseTime
          = ((s - pr.created_at : Int) : ℚ))
    ∧ (∀ pr review, review.submitted_at = none →
        reviewResponseTime pr review = 0) := by
  have hfold := history_foldl_eq_pairs_foldl env reviewer since pullRequests
    { reviews := [], totalComments := 0, totalResponseTime := 0,
      lastReviewAt := none }
  refine ⟨?_, ?_, ?_⟩
  · intro hempty
    simp only [getReviewHistory, hfold]
    rw [hempty]
    simp
  · intro pr review s hone hsub
    have hstats := pairs_foldl_stats env
      (matchedReviewPairs env pullRequests reviewer since)
      { reviews := [], totalComments := 0, totalResponseTime := 0,
        lastReviewAt := none }
    simp only [getReviewHistory, hfold]
    rw [hone] at hstats ⊢
    simp only [List.length_cons, List.length_nil, List.map_cons,
      List.map_nil, List.sum_cons, List.sum_nil] at hstats
    simp only [hstats.1, hstats.2]
    simp [reviewResponseTime, hsub]
  · intro pr review hnone
    simp [reviewResponseTime, hnone]

def repoEnvEmpty : RepoEnv :=
  { files := fun _ => [], reviews := fun _ => [], comments := fun _ _ => [] }

def repoEnvOneReview : RepoEnv :=
  { files := fun _ => []
    reviews := fun n =>
      if n = 1 then [{ id := 10, user := some ⟨"bob"⟩, submitted_at := some 5 }]
      else []
    comments := fun _ _ => [] }

def prOne : PullRequest :=
  { number := 1, created_at := 2, user := ⟨"alice"⟩,
    requested_reviewers := some [] }

/-- Witness for C8 at concrete inputs: an empty match set gives
average 0; a single review submitted at time 5 on a PR created at time
2 gives average exactly 3; an absent submission timestamp contributes
0. -/
theorem getReviewHistory_average_witness :
    (getReviewHistory repoEnvEmpty [prOne] "bob" 0).stats.averageResponseTime
      = 0
    ∧ (getReviewHistory repoEnvOneReview [prOne] "bob"
        0).stats.averageResponseTime = (3 : ℚ)
    ∧ reviewResponseTime prOne
        { id := 11, user := some ⟨"bob"⟩, submitted_at := none } = 0 := by
  refine ⟨?_, ?_, ?_⟩
  · exact (getReviewHistory_average repoEnvEmpty [prOne] "bob" 0).1
      (by decide)
  · have h := (getReviewHistory_average repoEnvOneReview [prOne] "bob" 0).2.1
      prOne { id := 10, user := some ⟨"bob"⟩, submitted_at := some 5 } 5
      (by decide) rfl
    rw [h]
    norm_num [prOne]
  · exact (getReviewHistory_average repoEnvOneReview [prOne] "bob" 0).2.2
      prOne { id := 11, user := some ⟨"bob"⟩, submitted_at := none } rfl

/-! ## Scoring and ranking pipeline (src/index.ts lines 222-235)

JavaScript `Array.prototype.sort` with comparator
`(a, b) => b.score - a.score` is a stable descending sort by score;
`List.mergeSort` with the relation `b.score ≤ a.score` has exactly that
behaviour. `slice(0, count)` is `take count`. -/

structure ReviewerDetail where
  login : String
  name : Option String
  pendingReviews : ℕ
  relatedFileChanges : ℕ
  totalReviews : ℕ
deriving DecidableEq

structure ScoredReviewer where
  detail : ReviewerDetail
  score : ℚ
deriving DecidableEq

def scoreReviewers (reviewerDetails : List ReviewerDetail) :
    List ScoredReviewer :=
  reviewerDetails.map fun reviewer =>
    { detail := reviewer
      score := score reviewer.pendingReviews reviewer.relatedFileChanges
        reviewer.totalReviews }

def scoreDescending (a b : ScoredReviewer) : Bool :=
  b.score ≤ a.score

def sortScored (scored : List ScoredReviewer) : List ScoredReviewer :=
  scored.mergeSort scoreDescending

def scoredReviewers (reviewerDetails : List ReviewerDetail) (count : ℕ) :
    List ScoredReviewer :=
  (sortScored (scoreReviewers reviewerDetails)).take count

theorem scoreDescending_trans (a b c : ScoredReviewer)
    (h1 : scoreDescending a b) (h2 : scoreDescending b c) :
    scoreDescending a b → scoreDescending b c → scoreDescending a c := by
  intro _ _
  simp only [scoreDescending, decide_eq_true_eq] at *
  exact le_trans h2 h1

theorem scoreDescending_total (a b : ScoredReviewer) :
    scoreDescending a b || scoreDescending b a := by
  simp [scoreDescending, le_total]

def detailA : ReviewerDetail :=
  { login := "A", name := none, pendingReviews := 0,
    relatedFileChanges := 5, totalReviews := 0 }

def detailB : ReviewerDetail :=
  { login := "B", name := none, pendingReviews := 2,
    relatedFileChanges := 10, totalReviews := 0 }

def detailC : ReviewerDetail :=
  { login := "C", name := none, pendingReviews := 0,
    relatedFileChanges := 0, totalReviews := 0 }

/-- C7: the ranked output is the scored candidates sorted descending by
score (every adjacent pair satisfies `b.score ≤ a.score`), the sort is
a permutation of the scored list, ties retain the candidates' input
relative order (any equal-score pair appearing in input order is still
in that order after sorting), and the result is truncated to the
requested count; for input candidates A, B, C with scores 0.5, 0.5, 0.3
and count 2 the output is [A, B]. -/
theorem scoredReviewers_ranking :
    (∀ (scored : List ScoredReviewer),
      (sortScored scored).Pairwise fun a b => b.score ≤ a.score)
    ∧ (∀ (scored : List ScoredReviewer),
        List.Perm (sortScored scored) scored)
    ∧ (∀ (scored : List ScoredReviewer) (count : ℕ),
        ((sortScored scored).take count).length = min count scored.length)
    ∧ (∀ (scored : List ScoredReviewer) (a b : ScoredReviewer),
        a.score = b.score → List.Sublist [a, b] scored →
        List.Sublist [a, b] (sortScored scored))
    ∧ scoredReviewers [detailA, detailB, detailC] 2
      = [{ detail := detailA, score := 0.5 },
         { detail := detailB, score := 0.5 }] := by
  have htrans : ∀ a b c : ScoredReviewer,
      scoreDescending a b → scoreDescending b c → scoreDescending a c := by
    intro a b c h1 h2
    exact scoreDescending_trans a b c h1 h2 h1 h2
  refine ⟨?_, ?_, ?_, ?_, ?_⟩
  · intro scored
    have h := List.sorted_mergeSort htrans scoreDescending_total scored
    exact h.imp fun h' => by simpa [scoreDescending] using h'
  · intro scored
    exact List.mergeSort_perm scored scoreDescending
  · intro scored count
    simp [sortScored]
  · intro scored a b htie hsub
    apply List.sublist_mergeSort htrans scoreDescending_total
    · exact List.pairwise_pair.mpr (by simp [scoreDescending, htie])
    · exact hsub
  · have hlist : scoreReviewers [detailA, detailB, detailC]
        = [{ detail := detailA, score := 0.5 },
           { detail := detailB, score := 0.5 },
           { detail := detailC, score := 0.3 }] := by
      simp only [scoreReviewers, List.map_cons, List.map_nil]
      norm_num [score, detailA, detailB, detailC]
    have hsorted : sortScored
        [{ detail := detailA, score := 0.5 },
         { detail := detailB, score := 0.5 },
         ({ detail := detailC, score := 0.3 } : ScoredReviewer)]
        = [{ detail := detailA, score := 0.5 },
           { detail := detailB, score := 0.5 },
           { detail := detailC, score := 0.3 }] := by
      apply List.mergeSort_of_sorted
      norm_num [List.pairwise_cons, scoreDescending]
    simp only [scoredReviewers, hlist, hsorted]
    rfl

/-- Witness for C7: the stability conjunct applied at a concrete
equal-score pair. -/
theorem scoredReviewers_ranking_witness :
    List.Sublist
      [({ detail := detailA, score := 1 } : ScoredReviewer),
        { detail := detailB, score := 1 }]
      (sortScored
        [{ detail := detailA, score := 1 }, { detail := detailB, score := 1 }]) :=
  scoredReviewers_ranking.2.2.2.1
    [{ detail := detailA, score := 1 }, { detail := detailB, score := 1 }]
    { detail := detailA, score := 1 } { detail := detailB, score := 1 }
    rfl (List.Sublist.refl _)

/-! ## parsePullRequestUrl (src/test-client.ts lines 220-233)

The regex `https?:\/\/github\.com\/([^\/]+)\/([^\/]+)\/pull\/(\d+)` is
unanchored, so `url.match` scans start positions left to right and
returns the first match.  At a fixed start position the regex is
deterministic: each `[^\/]+` is a maximal nonempty run of characters
other than `/` (the class excludes the very character that follows, so
greedy matching never backtracks), `\d+` is a maximal nonempty digit
run with nothing after it, and the optional `s` of `https?` commits
(after consuming `s`, the `://` literal cannot also start with `s`, so
the backtracking alternative always fails).  `Number.parseInt(d, 10)`
on the captured digit run is the decimal value. -/

def dropLit : List Char → List Char → Option (List Char)
  | [], cs => some cs
  | _ :: _, [] => none
  | l :: ls, c :: cs => if c = l then dropLit ls cs else none

def litHttp : List Char := ['h', 't', 't', 'p']

def litHostSep : List Char :=
  [':', '/', '/', 'g', 'i', 't', 'h', 'u', 'b', '.', 'c', 'o', 'm', '/']

def litPull : List Char := ['p', 'u', 'l', 'l', '/']

def stripSchemeS (cs : List Char) : List Char :=
  match cs with
  | 's' :: rest => rest
  | other => other

def matchSeg (cs : List Char) : Option (List Char × List Char) :=
  let seg := cs.takeWhile fun c => c != '/'
  match seg, cs.dropWhile fun c => c != '/' with
  | [], _ => none
  | _, [] => none
  | _, _ :: rest => some (seg, rest)

def matchAt (cs : List Char) : Option (List Char × List Char × List Char) :=
  match dropLit litHttp cs with
  | none => none
  | some afterHttp =>
      match dropLit litHostSep (stripSchemeS afterHttp) with
      | none => none
      | some afterHost =>
          match matchSeg afterHost with
          | none => none
          | some (owner, afterOwner) =>
              match matchSeg afterOwner with
              | none => none
              | some (repo, afterRepo) =>
                  match dropLit litPull afterRepo with
                  | none => none
                  | some afterPull =>
                      let digits := afterPull.takeWhile Char.isDigit
                      if digits.isEmpty then none
                      else some (owner, repo, digits)

def findMatch : List Char → Option (List Char × List Char × List Char)
  | [] => none
  | c :: rest =>
      match matchAt (c :: rest) with
      | some result => some result
      | none => findMatch rest

def digitsToNat (ds : List Char) : ℕ :=
  ds.foldl (fun n c => n * 10 + (c.toNat - 48)) 0

def parsePullRequestUrl (url : String) : Option PullRequestParams :=
  match findMatch url.toList with
  | none => none
  | some (owner, repo, digits) =>
      some { owner := String.mk owner, repo := String.mk repo,
             pullNumber := digitsToNat digits }

/-- The exact shape the regex recognizes with scheme https and host
github.com, as a character list. -/
def ghUrl (owner repo digits : List Char) : List Char :=
  litHttp ++
    ('s' :: (litHostSep ++
      (owner ++ ('/' :: (repo ++ ('/' :: (litPull ++ digits)))))))

theorem dropLit_append (l r : List Char) : dropLit l (l ++ r) = some r := by
  induction l with
  | nil => rfl
  | cons c cs ih => simp [dropLit, ih]

theorem takeWhile_append_all {α : Type} (p : α → Bool) (l r : List α)
    (h : ∀ a ∈ l, p a = true) :
    (l ++ r).takeWhile p = l ++ r.takeWhile p := by
  induction l with
  | nil => simp
  | cons x xs ih =>
      simp only [List.cons_append, List.takeWhile_cons, h x (by simp)]
      simp [ih fun a ha => h a (by simp [ha])]

theorem dropWhile_append_all {α : Type} (p : α → Bool) (l r : List α)
    (h : ∀ a ∈ l, p a = true) :
    (l ++ r).dropWhile p = r.dropWhile p := by
  induction l with
  | nil => simp
  | cons x xs ih =>
      simp only [List.cons_append, List.dropWhile_cons, h x (by simp)]
      simp [ih fun a ha => h a (by simp [ha])]

theorem matchSeg_exact (seg tail : List Char) (hne : seg ≠ [])
    (hseg : ∀ c ∈ seg, c ≠ '/') :
    matchSeg (seg ++ '/' :: tail) = some (seg, tail) := by
  have hall : ∀ c ∈ seg, (c != '/') = true := fun c hc => by
    simpa using hseg c hc
  obtain ⟨a, as, rfl⟩ := List.exists_cons_of_ne_nil hne
  unfold matchSeg
  rw [takeWhile_append_all _ _ _ hall, dropWhile_append_all _ _ _ hall]
  simp [List.takeWhile_cons, List.dropWhile_cons]

theorem takeWhile_digits_exact (ds rest : List Char)
    (hds : ∀ c ∈ ds, c.isDigit = true)
    (hrest : ∀ c, rest.head? = some c → c.isDigit = false) :
    (ds ++ rest).takeWhile Char.isDigit = ds := by
  rw [takeWhile_append_all _ _ _ hds]
  cases rest with
  | nil => simp
  | cons c cs => simp [List.takeWhile_cons, hrest c rfl]

theorem matchAt_exact (owner repo digits rest : List Char)
    (ho : owner ≠ []) (hos : ∀ c ∈ owner, c ≠ '/')
    (hr : repo ≠ []) (hrs : ∀ c ∈ repo, c ≠ '/')
    (hd : digits ≠ []) (hds : ∀ c ∈ digits, c.isDigit = true)
    (hrest : ∀ c, rest.head? = some c → c.isDigit = false) :
    matchAt (ghUrl owner repo digits ++ rest)
      = some (owner, repo, digits) := by
  have hshape : ghUrl owner repo digits ++ rest
      = litHttp ++
          ('s' :: (litHostSep ++
            (owner ++ ('/' :: (repo ++
              ('/' :: (litPull ++ (digits ++ rest)))))))) := by
    simp [ghUrl]
  rw [hshape]
  simp only [matchAt, dropLit_append, stripSchemeS,
    matchSeg_exact owner _ ho hos, matchSeg_exact repo _ hr hrs,
    takeWhile_digits_exact digits rest hds hrest]
  obtain ⟨d, ds, rfl⟩ := List.exists_cons_of_ne_nil hd
  simp

theorem findMatch_of_matchAt (cs : List Char)
    (r : List Char × List Char × List Char) (hne : cs ≠ [])
    (h : matchAt cs = some r) : findMatch cs = some r := by
  cases cs with
  | nil => exact absurd rfl hne
  | cons c rest => simp [findMatch, h]

theorem findMatch_append_of_none (p t : List Char)
    (h : ∀ i, i < p.length → matchAt ((p ++ t).drop i) = none) :
    findMatch (p ++ t) = findMatch t := by
  induction p with
  | nil => rfl
  | cons c cs ih =>
      have h0 := h 0 (by simp)
      simp only [List.drop_zero, List.cons_append] at h0
      rw [List.cons_append]
      conv_lhs => rw [findMatch]
      rw [h0]
      exact ih fun i hi => by
        have := h (i + 1) (by simpa using Nat.succ_lt_succ hi)
        simpa [List.cons_append] using this

theorem ghUrl_ne_nil (owner repo digits : List Char) :
    ghUrl owner repo digits ≠ [] := by
  simp [ghUrl, litHttp]

/-- Counterexample to C9: the regex fixes the host to github.com, so a
URL of the claimed shape `https://<host>/<owner>/<repo>/pull/<number>`
with a different host yields absent instead of parsing. -/
theorem parsePullRequestUrl_other_host :
    parsePullRequestUrl "https://example.com/acme/widgets/pull/42"
      = none := by decide

/-- C9 (amended): `parsePullRequestUrl` recognizes URLs of the shape
https://github.com/owner/repo/pull/number — the host is fixed to
github.com — returning the owner, repo and decimal number; any string
with no such match yields absent (and the parser is a total function,
so it never throws).  In particular
https://github.com/acme/widgets/pull/42 parses to acme/widgets/42 and
https://github.com/acme/widgets/issues/42 yields absent. -/
theorem parsePullRequestUrl_github_shape :
    (∀ owner repo digits : List Char,
      owner ≠ [] → (∀ c ∈ owner, c ≠ '/') →
      repo ≠ [] → (∀ c ∈ repo, c ≠ '/') →
      digits ≠ [] → (∀ c ∈ digits, c.isDigit = true) →
      parsePullRequestUrl (String.mk (ghUrl owner repo digits))
        = some { owner := String.mk owner, repo := String.mk repo,
                 pullNumber := digitsToNat digits })
    ∧ parsePullRequestUrl "https://github.com/acme/widgets/pull/42"
      = some { owner := "acme", repo := "widgets", pullNumber := 42 }
    ∧ parsePullRequestUrl "https://github.com/acme/widgets/issues/42"
      = none := by
  refine ⟨?_, by decide, by decide⟩
  intro owner repo digits ho hos hr hrs hd hds
  have hmatch : matchAt (ghUrl owner repo digits)
      = some (owner, repo, digits) := by
    have := matchAt_exact owner repo digits [] ho hos hr hrs hd hds
      (fun c hc => by simp at hc)
    simpa using this
  have hfind := findMatch_of_matchAt _ _ (ghUrl_ne_nil owner repo digits)
    hmatch
  have htl : (String.mk (ghUrl owner repo digits)).toList
      = ghUrl owner repo digits := rfl
  unfold parsePullRequestUrl
  rw [htl, hfind]

/-- Witness for C9 (amended): the general github.com-shape conjunct at
a concrete owner, repo and number. -/
theorem parsePullRequestUrl_github_shape_witness :
    parsePullRequestUrl
        (String.mk (ghUrl "acme".toList "widgets".toList "7".toList))
      = some { owner := String.mk "acme".toList,
               repo := String.mk "widgets".toList,
               pullNumber := digitsToNat "7".toList } :=
  parsePullRequestUrl_github_shape.1 "acme".toList "widgets".toList
    "7".toList (by decide) (by decide) (by decide) (by decide) (by decide)
    (by decide)

/-- C10: matching is by unanchored substring scan.  For any input that
decomposes as `pre ++ ghUrl owner repo digits ++ post` where no match
starts inside `pre` (this occurrence is the first), the digit run is
maximal (`post` does not start with a digit), and the segments are
well-formed, the parser returns that occurrence's owner, repo and
number — it does not return absent.  This covers embedded URLs
(arbitrary `pre`) and trailing path segments such as `/files`
(`post` starting with `/`). -/
theorem parsePullRequestUrl_unanchored
    (pre owner repo digits post : List Char)
    (ho : owner ≠ []) (hos : ∀ c ∈ owner, c ≠ '/')
    (hr : repo ≠ []) (hrs : ∀ c ∈ repo, c ≠ '/')
    (hd : digits ≠ []) (hds : ∀ c ∈ digits, c.isDigit = true)
    (hpost : ∀ c, post.head? = some c → c.isDigit = false)
    (hfirst : ∀ i, i < pre.length →
      matchAt ((pre ++ (ghUrl owner repo digits ++ post)).drop i) = none) :
    parsePullRequestUrl
        (String.mk (pre ++ (ghUrl owner repo digits ++ post)))
      = some { owner := String.mk owner, repo := String.mk repo,
               pullNumber := digitsToNat digits } := by
  have hmatch : matchAt (ghUrl owner repo digits ++ post)
      = some (owner, repo, digits) :=
    matchAt_exact owner repo digits post ho hos hr hrs hd hds hpost
  have hne : ghUrl owner repo digits ++ post ≠ [] := by
    intro hc
    exact ghUrl_ne_nil owner repo digits (List.append_eq_nil.mp hc).1
  have hfind := findMatch_of_matchAt _ _ hne hmatch
  have hskip := findMatch_append_of_none pre
    (ghUrl owner repo digits ++ post) hfirst
  have htl : (String.mk
      (pre ++ (ghUrl owner repo digits ++ post))).toList
      = pre ++ (ghUrl owner repo digits ++ post) := rfl
  unfold parsePullRequestUrl
  rw [htl, hskip, hfind]

/-- Witness for C10: a PR URL embedded in surrounding text with a
trailing `/files` path segment still parses, to the first (only)
occurrence's parts. -/
theorem parsePullRequestUrl_unanchored_witness :
    parsePullRequestUrl
        (String.mk ("see ".toList ++
          (ghUrl "acme".toList "widgets".toList "42".toList ++
            "/files".toList)))
      = some { owner := String.mk "acme".toList,
               repo := String.mk "widgets".toList,
               pullNumber := digitsToNat "42".toList } :=
  parsePullRequestUrl_unanchored "see ".toList "acme".toList
    "widgets".toList "42".toList "/files".toList (by decide) (by decide)
    (by decide) (by decide) (by decide) (by decide) (by decide) (by decide)

end PullBuddy
